import Mathlib

/-!
Verification of the jotti uploader (cyclone-github/jotti, `jotti.go`).

The Go program is shallowly embedded: each Go function that the claims
touch becomes a Lean definition over lists of bytes (`List Nat`, each
element `< 256`), strings, and explicit state.  Side effects (network
responses, filesystem contents, `os.Exit`, `time.Sleep`) are made
explicit: network responses and file contents are inputs, and the
orchestrator produces a trace of externally visible actions together
with an optional process exit code.
-/

set_option maxHeartbeats 1000000

namespace Jotti

/-! ## Global constants (jotti.go lines 41-46, 87) -/

/-- `maxUploadSize = 250 * 1024 * 1024`: Jotti's 250 MiB upload ceiling. -/
def maxUploadSize : Nat := 250 * 1024 * 1024

/-- `progressBarWidth = 20`: width of the progress bar in cells. -/
def progressBarWidth : Nat := 20

/-- The rate-limit marker scanned for in the lookup response body. -/
def rateLimitMarker : String := "Too many requests"

/-- The not-found marker scanned for in the lookup response body. -/
def notFoundMarker : String := "Hash not found"

/-- `jottiChecksumURL` with its `%s` placeholder removed; `searchURL`
re-attaches the checksum, mirroring `fmt.Sprintf(jottiChecksumURL, checksum)`. -/
def jottiChecksumBase : String := "https://virusscan.jotti.org/en-US/search/hash/"

/-! ## String containment (Go `strings.Contains`) -/

/-- `hasSubList pat s = true` iff `pat` occurs as a contiguous sublist of `s`;
model of Go `strings.Contains` on the underlying character lists. -/
def hasSubList (pat : List Char) : List Char → Bool
  | [] => pat.isEmpty
  | c :: rest => pat.isPrefixOf (c :: rest) || hasSubList pat rest

/-- Model of Go `strings.Contains s pat`. -/
def strContains (s pat : String) : Bool :=
  hasSubList pat.data s.data

/-! ## SHA-1 (`crypto/sha1` as used by `calculateSHA1Checksum`)

Bytes are `Nat`s below 256, 32-bit words are `Nat`s below `2^32`, with
reductions `% M32` exactly where the Go `uint32` arithmetic wraps. -/

/-- `2^32`, the modulus of Go `uint32` arithmetic. -/
def M32 : Nat := 4294967296

/-- Rotate the 32-bit word `w` left by `n` bits. -/
def rotl (n w : Nat) : Nat :=
  ((w <<< n) ||| (w >>> (32 - n))) % M32

/-- Bitwise complement of a 32-bit word. -/
def not32 (w : Nat) : Nat := w ^^^ (M32 - 1)

/-- Group a byte list into big-endian 32-bit words (trailing fragment
shorter than 4 bytes is dropped; padding guarantees there is none). -/
def toWords : List Nat → List Nat
  | b0 :: b1 :: b2 :: b3 :: rest =>
    (b0 * 16777216 + b1 * 65536 + b2 * 256 + b3) :: toWords rest
  | _ => []

/-- The 8-byte big-endian encoding of the message length in bits. -/
def lenBE (len : Nat) : List Nat :=
  let bits := len * 8
  [(bits >>> 56) % 256, (bits >>> 48) % 256, (bits >>> 40) % 256,
   (bits >>> 32) % 256, (bits >>> 24) % 256, (bits >>> 16) % 256,
   (bits >>> 8) % 256, bits % 256]

/-- SHA-1 padding: append `0x80`, zero bytes up to 56 mod 64, then the
64-bit big-endian bit length. -/
def sha1Pad (msg : List Nat) : List Nat :=
  let zeros := (120 - (msg.length + 1) % 64) % 64
  msg ++ 128 :: (List.replicate zeros 0 ++ lenBE msg.length)

/-- Message-schedule extension: `acc` holds the words produced so far,
newest first; each step prepends
`rotl 1 (w[t-3] ^^^ w[t-8] ^^^ w[t-14] ^^^ w[t-16])`. -/
def extendW (acc : List Nat) : Nat → List Nat
  | 0 => acc
  | k + 1 =>
    extendW (rotl 1 ((acc.getD 2 0) ^^^ (acc.getD 7 0) ^^^
      (acc.getD 13 0) ^^^ (acc.getD 15 0)) :: acc) k

/-- Round function and constant for round `i` of the SHA-1 compression. -/
def fk (i b c d : Nat) : Nat × Nat :=
  if i < 20 then ((b &&& c) ||| (not32 b &&& d), 1518500249)
  else if i < 40 then (b ^^^ c ^^^ d, 1859775393)
  else if i < 60 then ((b &&& c) ||| (b &&& d) ||| (c &&& d), 2400959708)
  else (b ^^^ c ^^^ d, 3395469782)

/-- One SHA-1 round: rotate the state `(a,b,c,d,e)` with word `w` of round `i`. -/
def roundStep (st : Nat × Nat × Nat × Nat × Nat) (iw : Nat × Nat) :
    Nat × Nat × Nat × Nat × Nat :=
  let (a, b, c, d, e) := st
  let (f, k) := fk iw.1 b c d
  ((rotl 5 a + f + e + k + iw.2) % M32, a, rotl 30 b, c, d)

/-- The five 32-bit hash words carried between SHA-1 blocks. -/
structure Sha1H where
  h0 : Nat
  h1 : Nat
  h2 : Nat
  h3 : Nat
  h4 : Nat

/-- The SHA-1 initialization vector. -/
def sha1Init : Sha1H :=
  ⟨1732584193, 4023233417, 2562383102, 271733878, 3285377520⟩

/-- Compress one 64-byte block into the running hash state. -/
def compress (h : Sha1H) (block : List Nat) : Sha1H :=
  let ws := (extendW (toWords block).reverse 64).reverse
  let st := ws.enum.foldl roundStep (h.h0, h.h1, h.h2, h.h3, h.h4)
  ⟨(h.h0 + st.1) % M32, (h.h1 + st.2.1) % M32, (h.h2 + st.2.2.1) % M32,
   (h.h3 + st.2.2.2.1) % M32, (h.h4 + st.2.2.2.2) % M32⟩

/-- Fold `compress` over successive 64-byte chunks of the padded message. -/
def processChunks (h : Sha1H) (l : List Nat) : Sha1H :=
  match l with
  | [] => h
  | b :: rest =>
    processChunks (compress h (List.take 64 (b :: rest))) (List.drop 64 (b :: rest))
termination_by l.length
decreasing_by simp [List.length_drop]; omega

/-- Serialize a 32-bit word as 4 big-endian bytes. -/
def wordBytes (w : Nat) : List Nat :=
  [(w >>> 24) % 256, (w >>> 16) % 256, (w >>> 8) % 256, w % 256]

/-- The 20-byte SHA-1 digest of a byte list. -/
def sha1Bytes (msg : List Nat) : List Nat :=
  let h := processChunks sha1Init (sha1Pad msg)
  wordBytes h.h0 ++ wordBytes h.h1 ++ wordBytes h.h2 ++
    wordBytes h.h3 ++ wordBytes h.h4

/-- The lowercase hex alphabet of Go `encoding/hex` (`hextable`). -/
def hexTable : List Char :=
  "0123456789abcdef".data

/-- The hex character for a nibble. -/
def hexChar (n : Nat) : Char := hexTable.getD n '0'

/-- The two hex characters of one byte (`hextable[b>>4]`, `hextable[b&0x0f]`). -/
def hexByte (b : Nat) : List Char :=
  [hexChar (b >>> 4), hexChar (b &&& 15)]

/-- Model of `hex.EncodeToString`: hex-encode a byte list. -/
def hexEncode : List Nat → List Char
  | [] => []
  | b :: bs => hexByte b ++ hexEncode bs

/-- The lowercase hex SHA-1 digest string of a byte list:
`hex.EncodeToString(hash.Sum(nil))` for `hash = sha1.New()` fed `msg`. -/
def sha1Hex (msg : List Nat) : String :=
  String.mk (hexEncode (sha1Bytes msg))

/-! ## `calculateSHA1Checksum` (jotti.go lines 65-78)

The filesystem is explicit: a map from paths to `Option` byte contents,
`none` meaning `os.Open` (or reading) fails for that path.  The Go
function returns `(string, error)`; we return `Option String`. -/

/-- Model of `calculateSHA1Checksum`: open `path` in the filesystem `fs`
(`none` = open/read error), stream the contents through SHA-1, and
hex-encode the digest. -/
def calculateSHA1Checksum (fs : String → Option (List Nat)) (path : String) :
    Option String :=
  (fs path).map sha1Hex

/-! ## Remote lookup: `checkJottiSearch` (jotti.go lines 180-210)

The HTTP GET is made explicit: the response (status code and body) is an
input.  The Go function returns `(bool, string, error)` and may call
`os.Exit(2)`; we reflect all four outcomes in one inductive result. -/

/-- An HTTP response as seen by `checkJottiSearch`: status code and body. -/
structure HttpResponse where
  status : Nat
  body : String
deriving DecidableEq

/-- Outcome of `checkJottiSearch`: a normal return `(found, url)`, a
non-200-status error carrying the status code, or process termination
via `os.Exit` with the given exit code. -/
inductive SearchResult where
  | ok (found : Bool) (url : String)
  | httpError (status : Nat)
  | rateLimitExit (code : Nat)
deriving DecidableEq

/-- The query URL built from the checksum
(`fmt.Sprintf(jottiChecksumURL, checksum)`). -/
def searchURL (checksum : String) : String :=
  jottiChecksumBase ++ checksum

/-- Model of `checkJottiSearch` (jotti.go lines 180-210), with the HTTP
response passed in explicitly.  On status 200 it scans the body for the
rate-limit marker (exiting the process with code 2), then for the
not-found marker; any other status is an error carrying the status. -/
def checkJottiSearch (checksum : String) (resp : HttpResponse) : SearchResult :=
  if resp.status = 200 then
    if strContains resp.body rateLimitMarker then
      SearchResult.rateLimitExit 2
    else if strContains resp.body notFoundMarker then
      SearchResult.ok false (searchURL checksum)
    else
      SearchResult.ok true (searchURL checksum)
  else
    SearchResult.httpError resp.status

/-! ## The per-file loop of `main` (jotti.go lines 235-283)

The loop body's interactions with the outside world are made explicit
per file: the `os.Stat` result, the file contents as seen by
`calculateSHA1Checksum` (`none` = open/read error), the lookup HTTP
response (`none` = transport error), and the upload HTTP status
(`none` = transport error).  The body emits a trace of externally
visible actions; `os.Exit` inside `checkJottiSearch` aborts the loop. -/

/-- The fields of `os.FileInfo` that `main` consults. -/
structure FileStat where
  isDir : Bool
  size : Nat
deriving DecidableEq

/-- The external world for one iteration of the loop in `main`. -/
structure FileEnv where
  stat : Option FileStat
  contents : Option (List Nat)
  lookupResp : Option HttpResponse
  uploadStatus : Option Nat
deriving DecidableEq

/-- Externally visible actions of one loop iteration, in order. -/
inductive Action where
  | statFile
  | openForHash
  | lookupRequest
  | uploadRequest
  | sleep (ms : Nat)
deriving DecidableEq

/-- The terminal outcome of one loop iteration. -/
inductive FileOutcome where
  | statError
  | skippedDir
  | skippedSize
  | hashError
  | lookupError
  | rateLimited
  | alreadyFound
  | uploadError
  | uploaded
deriving DecidableEq

/-- One iteration of the loop in `main` (jotti.go lines 235-283): stat,
directory and 250 MiB checks, SHA-1 checksum, Jotti lookup, upload,
and the `time.Sleep(1000 ms)` that ends a successful iteration. -/
def processFile (e : FileEnv) : List Action × FileOutcome :=
  match e.stat with
  | none => ([Action.statFile], FileOutcome.statError)
  | some fi =>
    if fi.isDir then ([Action.statFile], FileOutcome.skippedDir)
    else if maxUploadSize < fi.size then
      ([Action.statFile], FileOutcome.skippedSize)
    else
      match e.contents with
      | none => ([Action.statFile, Action.openForHash], FileOutcome.hashError)
      | some bytes =>
        let checksum := sha1Hex bytes
        match e.lookupResp with
        | none =>
          ([Action.statFile, Action.openForHash, Action.lookupRequest],
           FileOutcome.lookupError)
        | some resp =>
          let base := [Action.statFile, Action.openForHash, Action.lookupRequest]
          match checkJottiSearch checksum resp with
          | SearchResult.rateLimitExit _ => (base, FileOutcome.rateLimited)
          | SearchResult.httpError _ => (base, FileOutcome.lookupError)
          | SearchResult.ok true _ => (base, FileOutcome.alreadyFound)
          | SearchResult.ok false _ =>
            match e.uploadStatus with
            | some 200 =>
              (base ++ [Action.uploadRequest, Action.sleep 1000],
               FileOutcome.uploaded)
            | _ =>
              (base ++ [Action.uploadRequest], FileOutcome.uploadError)

/-- The whole loop of `main` over the argument list: the concatenated
action trace, and `some code` when `os.Exit code` fired (rate limit),
cutting off all later files. -/
def runMain : List FileEnv → List Action × Option Nat
  | [] => ([], none)
  | e :: rest =>
    if (processFile e).2 = FileOutcome.rateLimited then ((processFile e).1, some 2)
    else ((processFile e).1 ++ (runMain rest).1, (runMain rest).2)

/-! ## `progressReader` (jotti.go lines 80-104) and its use in
`uploadFile` (lines 153-157)

In `uploadFile` the wrapped reader is `bytes.NewReader(raw)`, so the
underlying source is modelled by its remaining byte list: a
`bytes.Reader` returns `(0, io.EOF)` exactly when no bytes remain, and
otherwise copies `min(len(b), remaining)` bytes with a `nil` error.
Times are naturals (milliseconds); each `Read` call takes the current
`time.Now()` as input.  Writes to stderr become `PREvent`s. -/

/-- A render event emitted by `progressReader.Read`: an in-progress
bar redraw (`p.render()`) or the terminal redraw (`p.renderDone()`). -/
inductive PREvent where
  | render
  | renderDone
deriving DecidableEq

/-- The mutable state of the Go `progressReader`: `r` is the remaining
content of the wrapped `bytes.Reader`. -/
structure progressReader where
  r : List Nat
  total : Nat
  read : Nat
  lastTick : Nat
deriving DecidableEq

/-- What one `Read` call returns and emits: the bytes copied into the
caller's buffer, the returned count `n`, whether the returned error is
`io.EOF`, and the render events written to stderr, in order. -/
structure ReadOut where
  chunk : List Nat
  n : Nat
  eof : Bool
  events : List PREvent
deriving DecidableEq

/-- One `Read` of `bytes.Reader` with a buffer of length `bufLen`:
at end of data it returns `(no bytes, EOF)`; otherwise it copies
`min bufLen remaining` bytes and returns no error. -/
def bytesReaderRead (bufLen : Nat) (src : List Nat) :
    List Nat × List Nat × Bool :=
  match src with
  | [] => ([], [], true)
  | c :: rest => ((c :: rest).take bufLen, (c :: rest).drop bufLen, false)

/-- Model of `progressReader.Read` (jotti.go lines 89-104) with buffer
length `bufLen` at time `now`: forward the underlying read, add `n` to
`p.read`, render when 150 ms have passed or the counter reached
`p.total` (updating `lastTick`), and render the terminal state whenever
the underlying error is `io.EOF`. -/
def progressReader.Read (p : progressReader) (bufLen now : Nat) :
    progressReader × ReadOut :=
  let (chunk, rest, eof) := bytesReaderRead bufLen p.r
  let n := chunk.length
  let doneEvs : List PREvent := if eof then [PREvent.renderDone] else []
  if 0 < n then
    let read2 := p.read + n
    if 150 ≤ now - p.lastTick ∨ read2 = p.total then
      (⟨rest, p.total, read2, now⟩,
       ⟨chunk, n, eof, PREvent.render :: doneEvs⟩)
    else
      (⟨rest, p.total, read2, p.lastTick⟩, ⟨chunk, n, eof, doneEvs⟩)
  else
    (⟨rest, p.total, p.read, p.lastTick⟩, ⟨chunk, n, eof, doneEvs⟩)

/-- Run a sequence of `Read` calls, each given as
`(buffer length, time.Now())`, returning the final state and the
per-call results in order. -/
def runReads (p : progressReader) : List (Nat × Nat) → progressReader × List ReadOut
  | [] => (p, [])
  | (b, t) :: rest =>
    ((runReads (p.Read b t).1 rest).1,
     (p.Read b t).2 :: (runReads (p.Read b t).1 rest).2)

/-- The `progressReader` built in `uploadFile` (jotti.go lines 153-157):
wraps `bytes.NewReader(raw)` with `total = len(raw)`; `read` and
`lastTick` start at their zero values. -/
def uploadInit (raw : List Nat) : progressReader :=
  ⟨raw, raw.length, 0, 0⟩

/-! ## `progressReader.render` (jotti.go lines 106-121)

The float64 percentage arithmetic is embedded with exact rationals;
`int(...)` truncation of the non-negative percentage is `Int.floor`.
`fmt` verbs are modelled by explicit decimal printing: `%6.2f` rounds
to two decimals and pads to width 6.  The rendered line is modelled as
the character list written to stderr. -/

/-- The decimal digit characters. -/
def decDigits : List Char :=
  "0123456789".data

/-- Decimal digits of a natural number, most significant first. -/
def natDecimal (n : Nat) : List Char :=
  if n < 10 then [hexChar n]
  else natDecimal (n / 10) ++ [hexChar (n % 10)]
termination_by n
decreasing_by exact Nat.div_lt_self (by omega) (by omega)

/-- A count of hundredths printed as `whole.fr` with exactly two
fraction digits. -/
def fmtCents (cents : Nat) : List Char :=
  natDecimal (cents / 100) ++
    '.' :: [hexChar (cents % 100 / 10), hexChar (cents % 10)]

/-- Model of `fmt` `%6.2f` for a non-negative rational: round to
hundredths, print with exactly two digits after the point, left-pad
with spaces to width 6. -/
def fmtPercent (q : ℚ) : List Char :=
  List.replicate (6 - (fmtCents (Int.floor (q * 100 + 1 / 2)).toNat).length) ' ' ++
    fmtCents (Int.floor (q * 100 + 1 / 2)).toNat

/-- `percent := float64(p.read) * 100 / float64(p.total)`. -/
def progressReader.percent (p : progressReader) : ℚ :=
  (p.read : ℚ) * 100 / (p.total : ℚ)

/-- `filled := int(percent / (100 / progressBarWidth))`, capped at
`progressBarWidth` when larger. -/
def progressReader.filled (p : progressReader) : Nat :=
  let f0 : Int := Int.floor (p.percent / ((100 : ℚ) / (progressBarWidth : ℚ)))
  if (progressBarWidth : Int) < f0 then progressBarWidth else f0.toNat

/-- The bar cells: `'='` below `filled`, `' '` above, over the fixed
`progressBarWidth` indices. -/
def progressReader.barChars (p : progressReader) : List Char :=
  (List.range progressBarWidth).map fun i => if i < p.filled then '=' else ' '

/-- The characters written by one `p.render()` call:
`"\rProgress: [%s] %6.2f%%"`. -/
def progressReader.renderChars (p : progressReader) : List Char :=
  '\r' :: "Progress: [".data ++ p.barChars ++
    ']' :: ' ' :: (fmtPercent p.percent ++ ['%'])

/-- Model of `progressReader.render` as the string written to stderr. -/
def progressReader.render (p : progressReader) : String :=
  String.mk p.renderChars

/-- The characters written by `p.renderDone()` (jotti.go lines 123-129):
a full bar and the terminal text. -/
def renderDoneChars : List Char :=
  '\r' :: "Progress: [".data ++ List.replicate progressBarWidth '=' ++
    "] 100.00% (sent) - waiting response...".data

/-- Number of terminal (`renderDone`) events across a run's results. -/
def doneCount (outs : List ReadOut) : Nat :=
  (outs.map fun o => o.events.count PREvent.renderDone).sum

/-- Number of calls in a run that returned `io.EOF`. -/
def eofCount (outs : List ReadOut) : Nat :=
  (outs.filter fun o => o.eof).length

/-! ## Concrete inputs used by witnesses and counterexamples -/

/-- A response body carrying both the rate-limit and the not-found markers. -/
def bodyBothMarkers : String := "Too many requests: Hash not found"

/-- A checksum string used by concrete lookup examples. -/
def exampleChecksum : String := "abc"

/-- A response body containing neither marker. -/
def bodyClear : String := "all clear"

/-- A response body of a non-200 response. -/
def bodyBusy : String := "busy"

/-- A loop environment for a regular 3-byte file whose size passes the
ceiling but whose lookup response is rate limited. -/
def envRateLimited : FileEnv :=
  ⟨some ⟨false, 3⟩, some [97, 98, 99], some ⟨200, rateLimitMarker⟩, none⟩

/-- A loop environment for a regular file one byte over the 250 MiB ceiling. -/
def envOversize : FileEnv :=
  ⟨some ⟨false, 262144001⟩, none, none, none⟩

/-- A loop environment for an empty regular file that is not on Jotti and
uploads successfully. -/
def envUploadOk : FileEnv :=
  ⟨some ⟨false, 0⟩, some [], some ⟨200, notFoundMarker⟩, some 200⟩

/-! ## Theorems -/

/-- **C10.** In `checkJottiSearch`, the rate-limit check precedes the
not-found check: an HTTP-200 body containing both markers terminates
the process with exit code 2 instead of returning NotFound. -/
theorem c10_rate_limit_precedence (checksum : String) (resp : HttpResponse)
    (hs : resp.status = 200)
    (hrl : strContains resp.body rateLimitMarker = true)
    (_hnf : strContains resp.body notFoundMarker = true) :
    checkJottiSearch checksum resp = SearchResult.rateLimitExit 2 := by
  simp [checkJottiSearch, hs, hrl]

/-- Witness for C10 at a concrete checksum and response. -/
theorem c10_witness :
    checkJottiSearch (sha1Hex []) ⟨200, bodyBothMarkers⟩ =
      SearchResult.rateLimitExit 2 :=
  c10_rate_limit_precedence (sha1Hex []) ⟨200, bodyBothMarkers⟩ rfl
    (by decide) (by decide)

/-- **C4, counterexample.** The claim's first case ("success status with a
body containing the not-found marker yields NotFound") fails when the
body also contains the rate-limit marker: `checkJottiSearch` then exits
the process instead of returning NotFound. -/
theorem c4_counterexample :
    checkJottiSearch exampleChecksum ⟨200, bodyBothMarkers⟩ = SearchResult.rateLimitExit 2 ∧
      ¬ checkJottiSearch exampleChecksum ⟨200, bodyBothMarkers⟩ =
        SearchResult.ok false (searchURL exampleChecksum) := by
  constructor
  · decide
  · decide

/-- **C4 (amended).** For a body free of the rate-limit marker, an
HTTP-200 response containing the not-found marker yields NotFound with
the query URL; an HTTP-200 response containing neither marker yields
Found with the query URL; any non-200 status yields an error carrying
the status code. -/
theorem c4_lookup_cases (checksum : String) (resp : HttpResponse) :
    (resp.status = 200 → strContains resp.body rateLimitMarker = false →
      strContains resp.body notFoundMarker = true →
      checkJottiSearch checksum resp = SearchResult.ok false (searchURL checksum)) ∧
    (resp.status = 200 → strContains resp.body rateLimitMarker = false →
      strContains resp.body notFoundMarker = false →
      checkJottiSearch checksum resp = SearchResult.ok true (searchURL checksum)) ∧
    (resp.status ≠ 200 →
      checkJottiSearch checksum resp = SearchResult.httpError resp.status) := by
  refine ⟨fun hs hrl hnf => ?_, fun hs hrl hnf => ?_, fun hs => ?_⟩
  · simp [checkJottiSearch, hs, hrl, hnf]
  · simp [checkJottiSearch, hs, hrl, hnf]
  · simp [checkJottiSearch, hs]

/-- Witness for C4 (amended): all three cases at concrete responses. -/
theorem c4_witness :
    checkJottiSearch exampleChecksum ⟨200, notFoundMarker⟩ =
      SearchResult.ok false (searchURL exampleChecksum) ∧
    checkJottiSearch exampleChecksum ⟨200, bodyClear⟩ =
      SearchResult.ok true (searchURL exampleChecksum) ∧
    checkJottiSearch exampleChecksum ⟨503, bodyBusy⟩ = SearchResult.httpError 503 :=
  ⟨(c4_lookup_cases exampleChecksum ⟨200, notFoundMarker⟩).1 rfl (by decide) (by decide),
   (c4_lookup_cases exampleChecksum ⟨200, bodyClear⟩).2.1 rfl (by decide) (by decide),
   (c4_lookup_cases exampleChecksum ⟨503, bodyBusy⟩).2.2 (by decide)⟩

/-- **C3.** A lookup answered with HTTP 200 and a rate-limited body makes
the whole run terminate at that file with exit code 2: the trace of the
remaining argument list is exactly this file's trace — no later file
contributes any action — and the exit status is non-zero. -/
theorem c3_rate_limit_fail_fast (e : FileEnv) (rest : List FileEnv)
    (fi : FileStat) (bytes : List Nat) (resp : HttpResponse)
    (hstat : e.stat = some fi) (hdir : fi.isDir = false)
    (hsize : fi.size ≤ maxUploadSize) (hc : e.contents = some bytes)
    (hl : e.lookupResp = some resp) (hs : resp.status = 200)
    (hb : strContains resp.body rateLimitMarker = true) :
    runMain (e :: rest) = ((processFile e).1, some 2) ∧ (2 : Nat) ≠ 0 := by
  have hns : ¬ maxUploadSize < fi.size := by omega
  have hsearch : checkJottiSearch (sha1Hex bytes) resp =
      SearchResult.rateLimitExit 2 := by
    simp [checkJottiSearch, hs, hb]
  have hout : (processFile e).2 = FileOutcome.rateLimited := by
    simp [processFile, hstat, hdir, hns, hc, hl, hsearch]
  exact ⟨by simp [runMain, hout], by omega⟩

/-- Witness for C3: a concrete rate-limited environment followed by a
concrete further file; the run stops at the first file with exit code 2. -/
theorem c3_witness :
    runMain [envRateLimited, envUploadOk] =
      ((processFile envRateLimited).1, some 2) ∧ (2 : Nat) ≠ 0 :=
  c3_rate_limit_fail_fast envRateLimited [envUploadOk] ⟨false, 3⟩
    [97, 98, 99] ⟨200, rateLimitMarker⟩ rfl rfl (by decide) rfl rfl rfl
    (by decide)

/-- **C5.** A file whose stat'd size exceeds the 250 MiB ceiling is
skipped at once: its outcome is one of the two skip outcomes, and its
trace contains no hash-opening, no lookup request, and no upload
request. -/
theorem c5_oversize_skipped (e : FileEnv) (fi : FileStat)
    (hstat : e.stat = some fi) (hsize : maxUploadSize < fi.size) :
    ((processFile e).2 = FileOutcome.skippedDir ∨
      (processFile e).2 = FileOutcome.skippedSize) ∧
    Action.openForHash ∉ (processFile e).1 ∧
    Action.lookupRequest ∉ (processFile e).1 ∧
    Action.uploadRequest ∉ (processFile e).1 := by
  by_cases hd : fi.isDir
  · simp [processFile, hstat, hd]
  · simp [processFile, hstat, hd, hsize]

/-- Witness for C5 at a concrete file one byte over the ceiling. -/
theorem c5_witness :
    ((processFile envOversize).2 = FileOutcome.skippedDir ∨
      (processFile envOversize).2 = FileOutcome.skippedSize) ∧
    Action.openForHash ∉ (processFile envOversize).1 ∧
    Action.lookupRequest ∉ (processFile envOversize).1 ∧
    Action.uploadRequest ∉ (processFile envOversize).1 :=
  c5_oversize_skipped envOversize ⟨false, 262144001⟩ rfl (by decide)

/-- **C1, counterexample.** A file can reach a terminal outcome (here:
skipped for size) with no 1-second pause anywhere in the run's trace,
even though a further file follows: the fixed delay happens only on the
upload path, not after every outcome. -/
theorem c1_counterexample :
    (processFile envOversize).2 = FileOutcome.skippedSize ∧
      Action.sleep 1000 ∉ (runMain [envOversize, envOversize]).1 := by
  constructor
  · decide
  · decide

/-- **C1 (amended).** The orchestrator pauses the fixed 1-second delay
exactly on the successful-upload outcome: an uploaded file's trace ends
with the sleep, and a file with any other terminal outcome advances
with no sleep in its trace. -/
theorem c1_sleep_only_after_upload (e : FileEnv) :
    ((processFile e).2 = FileOutcome.uploaded →
      (processFile e).1.getLast? = some (Action.sleep 1000)) ∧
    ((processFile e).2 ≠ FileOutcome.uploaded →
      Action.sleep 1000 ∉ (processFile e).1) := by
  rcases e with ⟨stat, contents, lookup, upload⟩
  rcases stat with _ | fi
  · simp [processFile]
  · by_cases hd : fi.isDir
    · simp [processFile, hd]
    · by_cases hsz : maxUploadSize < fi.size
      · simp [processFile, hd, hsz]
      · rcases contents with _ | bytes
        · simp [processFile, hd, hsz]
        · rcases lookup with _ | resp
          · simp [processFile, hd, hsz]
          · cases hres : checkJottiSearch (sha1Hex bytes) resp with
            | ok found url =>
              cases found
              · rcases upload with _ | s
                · simp [processFile, hd, hsz, hres]
                · by_cases hs200 : s = 200
                  · subst hs200
                    simp [processFile, hd, hsz, hres, List.getLast?]
                  · simp [processFile, hd, hsz, hres, hs200]
              · simp [processFile, hd, hsz, hres]
            | httpError status => simp [processFile, hd, hsz, hres]
            | rateLimitExit code => simp [processFile, hd, hsz, hres]

/-- Witness for C1 (amended): a concrete successful upload ends with the
1-second sleep, and a concrete skipped file has no sleep. -/
theorem c1_witness :
    (processFile envUploadOk).1.getLast? = some (Action.sleep 1000) ∧
      Action.sleep 1000 ∉ (processFile envOversize).1 :=
  ⟨(c1_sleep_only_after_upload envUploadOk).1 (by decide),
   (c1_sleep_only_after_upload envOversize).2 (by decide)⟩

/-- One `Read` call preserves the sum of the cumulative counter and the
bytes still unread: the counter grows by exactly what the source gave up. -/
theorem Read_counter_invariant (p : progressReader) (b t : Nat) :
    (p.Read b t).1.read + (p.Read b t).1.r.length = p.read + p.r.length := by
  rcases p with ⟨src, total, read, lastTick⟩
  cases src with
  | nil => simp [progressReader.Read, bytesReaderRead]
  | cons c rest =>
    simp only [progressReader.Read, bytesReaderRead]
    split
    · split <;> simp <;> omega
    · simp_all

/-- A whole run of `Read` calls preserves the same sum. -/
theorem runReads_counter_invariant (calls : List (Nat × Nat))
    (p : progressReader) :
    (runReads p calls).1.read + (runReads p calls).1.r.length =
      p.read + p.r.length := by
  induction calls generalizing p with
  | nil => simp [runReads]
  | cons c rest ih =>
    rcases c with ⟨b, t⟩
    simpa [runReads] using
      (ih ((p.Read b t).1)).trans (Read_counter_invariant p b t)

/-- **C6.** Over any sequence of reads against the wrapper built by
`uploadFile` on a source of exactly `raw.length` bytes, the cumulative
counter never exceeds the total, and equals the total whenever the
source is exhausted. -/
theorem c6_read_counter (raw : List Nat) (calls : List (Nat × Nat)) :
    (runReads (uploadInit raw) calls).1.read ≤ (uploadInit raw).total ∧
    ((runReads (uploadInit raw) calls).1.r = [] →
      (runReads (uploadInit raw) calls).1.read = (uploadInit raw).total) := by
  have h := runReads_counter_invariant calls (uploadInit raw)
  simp only [uploadInit] at h ⊢
  constructor
  · omega
  · intro hr
    have hlen : (runReads ⟨raw, raw.length, 0, 0⟩ calls).1.r.length = 0 := by
      rw [hr]; rfl
    omega

/-- Witness for C6 at a concrete source and call sequence. -/
theorem c6_witness :
    (runReads (uploadInit [97, 98]) [(5, 200)]).1.read ≤
      (uploadInit [97, 98]).total ∧
    ((runReads (uploadInit [97, 98]) [(5, 200)]).1.r = [] →
      (runReads (uploadInit [97, 98]) [(5, 200)]).1.read =
        (uploadInit [97, 98]).total) :=
  c6_read_counter [97, 98] [(5, 200)]

/-- **C7.** The wrapper is transparent: each `Read` hands back exactly
the bytes, the count, and the end-of-data signal of the underlying
`bytes.Reader` call, and consumes exactly what that call consumed. -/
theorem c7_transparent (p : progressReader) (bufLen now : Nat) :
    (p.Read bufLen now).2.chunk = (bytesReaderRead bufLen p.r).1 ∧
    (p.Read bufLen now).2.n = (bytesReaderRead bufLen p.r).1.length ∧
    (p.Read bufLen now).2.eof = (bytesReaderRead bufLen p.r).2.2 ∧
    (p.Read bufLen now).1.r = (bytesReaderRead bufLen p.r).2.1 := by
  rcases p with ⟨src, total, read, lastTick⟩
  cases src with
  | nil => simp [progressReader.Read, bytesReaderRead]
  | cons c rest =>
    simp only [progressReader.Read, bytesReaderRead]
    split
    · split <;> simp
    · simp_all

/-- One `Read` call emits the terminal render exactly when it returns
`io.EOF`, and then exactly once. -/
theorem Read_done_count (p : progressReader) (b t : Nat) :
    (p.Read b t).2.events.count PREvent.renderDone =
      (if (p.Read b t).2.eof then 1 else 0) := by
  rcases p with ⟨src, total, read, lastTick⟩
  cases src with
  | nil => simp [progressReader.Read, bytesReaderRead]
  | cons c rest =>
    simp only [progressReader.Read, bytesReaderRead]
    split
    · split <;> simp
    · simp_all

/-- **C2, counterexample.** On a 1-byte source, a caller that issues two
further reads after exhaustion sees the terminal render twice, not
exactly once: the terminal render repeats on every read returning
end-of-stream. -/
theorem c2_counterexample :
    doneCount (runReads (uploadInit [97]) [(1, 200), (1, 350), (1, 500)]).2 = 2 ∧
      (2 : Nat) ≠ 1 := by
  constructor
  · decide
  · decide

/-- **C2 (amended).** Across every sequence of read calls, the terminal
render is emitted exactly once per call that returns end-of-stream; in
particular a caller that stops after the first end-of-stream signal
sees it exactly once. -/
theorem c2_done_per_eof (p : progressReader) (calls : List (Nat × Nat)) :
    doneCount (runReads p calls).2 = eofCount (runReads p calls).2 := by
  induction calls generalizing p with
  | nil => simp [runReads, doneCount, eofCount]
  | cons c rest ih =>
    rcases c with ⟨b, t⟩
    have hd := Read_done_count p b t
    cases he : (p.Read b t).2.eof with
    | false => simp_all [runReads, doneCount, eofCount, ih ((p.Read b t).1)]
    | true =>
      simp_all [runReads, doneCount, eofCount, ih ((p.Read b t).1)]
      omega

/-! ### Digest shape lemmas (for C9) -/

/-- Every serialized word byte is an actual byte. -/
theorem wordBytes_lt (w : Nat) : ∀ b ∈ wordBytes w, b < 256 := by
  intro b hb
  simp [wordBytes] at hb
  rcases hb with h | h | h | h <;> subst h <;>
    exact Nat.mod_lt _ (by norm_num)

/-- Every byte of a SHA-1 digest is an actual byte. -/
theorem sha1Bytes_lt (msg : List Nat) : ∀ b ∈ sha1Bytes msg, b < 256 := by
  intro b hb
  simp only [sha1Bytes, List.mem_append] at hb
  rcases hb with (((h | h) | h) | h) | h <;> exact wordBytes_lt _ _ h

/-- A SHA-1 digest always has 20 bytes. -/
theorem sha1Bytes_length (msg : List Nat) : (sha1Bytes msg).length = 20 := by
  simp [sha1Bytes, wordBytes]

/-- Hex encoding yields two characters per byte. -/
theorem hexEncode_length (bs : List Nat) :
    (hexEncode bs).length = 2 * bs.length := by
  induction bs with
  | nil => simp [hexEncode]
  | cons b bs ih => simp [hexEncode, hexByte, ih]; omega

/-- A nibble's hex character is drawn from the lowercase hex alphabet. -/
theorem hexChar_mem (n : Nat) (h : n < 16) : hexChar n ∈ hexTable := by
  interval_cases n <;> decide

/-- Both hex characters of a byte are drawn from the lowercase hex alphabet. -/
theorem hexByte_mem (b : Nat) (hb : b < 256) :
    ∀ c ∈ hexByte b, c ∈ hexTable := by
  intro c hc
  simp [hexByte] at hc
  rcases hc with h | h <;> subst h <;> apply hexChar_mem
  · have hdiv : b >>> 4 = b / 16 := by
      simp [Nat.shiftRight_eq_div_pow]
    omega
  · have hand : b &&& 15 ≤ 15 := Nat.and_le_right
    omega

/-- Hex encoding of genuine bytes stays inside the lowercase hex alphabet. -/
theorem hexEncode_mem (bs : List Nat) (h : ∀ b ∈ bs, b < 256) :
    ∀ c ∈ hexEncode bs, c ∈ hexTable := by
  induction bs with
  | nil => simp [hexEncode]
  | cons b bs ih =>
    intro c hc
    rcases List.mem_append.mp hc with h1 | h1
    · exact hexByte_mem b (h b (by simp)) c h1
    · exact ih (fun x hx => h x (by simp [hx])) c h1

/-- **C9.** The checksum computer is a pure function of file content:
two files (possibly with different paths, in different filesystems)
with byte-identical contents get the identical digest string, and the
digest is a 40-character string over the lowercase hex alphabet. -/
theorem c9_checksum_pure_hex (fs1 fs2 : String → Option (List Nat))
    (p1 p2 : String) (c : List Nat)
    (h1 : fs1 p1 = some c) (h2 : fs2 p2 = some c) :
    calculateSHA1Checksum fs1 p1 = calculateSHA1Checksum fs2 p2 ∧
    ∃ d, calculateSHA1Checksum fs1 p1 = some d ∧ d.length = 40 ∧
      ∀ ch ∈ d.data, ch ∈ hexTable := by
  refine ⟨by simp [calculateSHA1Checksum, h1, h2],
    ⟨sha1Hex c, by simp [calculateSHA1Checksum, h1], ?_, ?_⟩⟩
  · show (hexEncode (sha1Bytes c)).length = 40
    rw [hexEncode_length, sha1Bytes_length]
  · intro ch hch
    exact hexEncode_mem _ (sha1Bytes_lt c) ch hch

/-- A path in the example filesystem. -/
def pathA : String := "a.bin"

/-- Another path in the example filesystem. -/
def pathB : String := "b.bin"

/-- An example filesystem mapping every path to the same 3 bytes. -/
def fsEx : String → Option (List Nat) := fun _ => some [97, 98, 99]

/-- Witness for C9: two distinct paths with identical contents. -/
theorem c9_witness :
    calculateSHA1Checksum fsEx pathA = calculateSHA1Checksum fsEx pathB ∧
    ∃ d, calculateSHA1Checksum fsEx pathA = some d ∧ d.length = 40 ∧
      ∀ ch ∈ d.data, ch ∈ hexTable :=
  c9_checksum_pure_hex fsEx fsEx pathA pathB [97, 98, 99] rfl rfl

/-! ### Render shape lemmas (for C8) -/

/-- A decimal digit's character is a decimal digit character. -/
theorem hexChar_mem_dec (n : Nat) (h : n < 10) : hexChar n ∈ decDigits := by
  interval_cases n <;> decide

/-- Every character of `natDecimal n` is a decimal digit character. -/
theorem natDecimal_mem (n : Nat) : ∀ c ∈ natDecimal n, c ∈ decDigits := by
  induction n using Nat.strong_induction_on with
  | _ n ih =>
    intro c hc
    rw [natDecimal] at hc
    by_cases h : n < 10
    · simp [h] at hc
      subst hc
      exact hexChar_mem_dec n h
    · simp [h] at hc
      rcases hc with h1 | h1
      · exact ih (n / 10) (Nat.div_lt_self (by omega) (by omega)) c h1
      · subst h1
        exact hexChar_mem_dec _ (Nat.mod_lt _ (by omega))

/-- `fmtPercent` ends in a point followed by exactly two decimal digits. -/
theorem fmtPercent_decimals (q : ℚ) :
    ∃ pre d1 d2, fmtPercent q = pre ++ ['.', d1, d2] ∧
      d1 ∈ decDigits ∧ d2 ∈ decDigits := by
  refine ⟨List.replicate
      (6 - (fmtCents (Int.floor (q * 100 + 1 / 2)).toNat).length) ' ' ++
      natDecimal ((Int.floor (q * 100 + 1 / 2)).toNat / 100),
    hexChar ((Int.floor (q * 100 + 1 / 2)).toNat % 100 / 10),
    hexChar ((Int.floor (q * 100 + 1 / 2)).toNat % 10), ?_,
    hexChar_mem_dec _ (by omega), hexChar_mem_dec _ (by omega)⟩
  simp [fmtPercent, fmtCents, List.append_assoc]

/-- Every character of `fmtPercent` is a space, a decimal digit, or a point. -/
theorem fmtPercent_mem (q : ℚ) :
    ∀ c ∈ fmtPercent q, c = ' ' ∨ c ∈ decDigits ∨ c = '.' := by
  intro c hc
  rcases List.mem_append.mp hc with h | h
  · exact Or.inl (List.eq_of_mem_replicate h)
  · rcases List.mem_append.mp h with h1 | h1
    · exact Or.inr (Or.inl (natDecimal_mem _ c h1))
    · simp only [List.mem_cons, List.not_mem_nil, or_false] at h1
      rcases h1 with h1 | h1 | h1
      · exact Or.inr (Or.inr h1)
      · exact Or.inr (Or.inl (by subst h1; exact hexChar_mem_dec _ (by omega)))
      · exact Or.inr (Or.inl (by subst h1; exact hexChar_mem_dec _ (by omega)))

/-- Every bar cell is a filled or an empty cell. -/
theorem barChars_mem (p : progressReader) :
    ∀ c ∈ p.barChars, c = '=' ∨ c = ' ' := by
  intro c hc
  simp [progressReader.barChars] at hc
  obtain ⟨i, _, rfl⟩ := hc
  split <;> simp

/-- Counting the filled cells of a bar of `n` cells. -/
theorem bar_count (filled n : Nat) :
    (((List.range n).map fun i => if i < filled then '=' else ' ').count '=')
      = min filled n := by
  induction n with
  | zero => simp
  | succ n ih =>
    rw [List.range_succ]
    by_cases h : n < filled <;>
      simp [List.count_append, ih, h] <;> omega

/-- The percentage is non-negative. -/
theorem percent_nonneg (p : progressReader) : 0 ≤ p.percent := by
  unfold progressReader.percent
  positivity

/-- The fill count never exceeds the bar width. -/
theorem filled_le (p : progressReader) : p.filled ≤ progressBarWidth := by
  unfold progressReader.filled
  simp only [progressBarWidth]
  split <;> omega

/-- The capped fill count is the claimed
`min (floor (percent / (100/20))) 20`. -/
theorem filled_eq_min (p : progressReader) :
    p.filled =
      min (Int.toNat (Int.floor
        (p.percent / ((100 : ℚ) / (progressBarWidth : ℚ))))) progressBarWidth := by
  have hq : (0 : ℚ) ≤ p.percent / ((100 : ℚ) / (progressBarWidth : ℚ)) := by
    have := percent_nonneg p
    positivity
  have hf : 0 ≤ Int.floor (p.percent / ((100 : ℚ) / (progressBarWidth : ℚ))) :=
    Int.floor_nonneg.mpr hq
  unfold progressReader.filled
  simp only [progressBarWidth] at hf ⊢
  split <;> omega

/-- **C8.** Every progress render starts with a carriage return and has
no newline, draws a 20-cell bar whose filled-cell count is
`floor (percent / (100/20))` capped at 20, and prints the percentage
with exactly two digits after the decimal point. -/
theorem c8_render_contract (p : progressReader) (_h : 0 < p.total) :
    p.renderChars.head? = some '\r' ∧
    (∀ c ∈ p.renderChars, c ≠ '\n') ∧
    p.barChars.length = progressBarWidth ∧
    p.barChars.count '=' =
      min (Int.toNat (Int.floor
        (p.percent / ((100 : ℚ) / (progressBarWidth : ℚ))))) progressBarWidth ∧
    ∃ pre d1 d2, p.renderChars = pre ++ ['.', d1, d2, '%'] ∧
      d1 ∈ decDigits ∧ d2 ∈ decDigits := by
  refine ⟨rfl, ?_, by simp [progressReader.barChars], ?_, ?_⟩
  · intro c hc
    unfold progressReader.renderChars at hc
    rcases List.mem_cons.mp hc with h | h
    · subst h; decide
    · rcases List.mem_append.mp h with h | h
      · rcases List.mem_append.mp h with h | h
        · have hp : ∀ x ∈ "Progress: [".data, x ≠ '\n' := by decide
          exact hp c h
        · rcases barChars_mem p c h with h1 | h1 <;> subst h1 <;> decide
      · rcases List.mem_cons.mp h with h | h
        · subst h; decide
        · rcases List.mem_cons.mp h with h | h
          · subst h; decide
          · rcases List.mem_append.mp h with h | h
            · rcases fmtPercent_mem p.percent c h with h1 | h1 | h1
              · subst h1; decide
              · revert h1
                have hd : ∀ x ∈ decDigits, x ≠ '\n' := by decide
                exact fun h1 => hd c h1
              · subst h1; decide
            · simp only [List.mem_cons, List.not_mem_nil, or_false] at h
              subst h; decide
  · rw [← filled_eq_min]
    unfold progressReader.barChars
    rw [bar_count]
    exact Nat.min_eq_left (filled_le p)
  · obtain ⟨pre, d1, d2, heq, hd1, hd2⟩ := fmtPercent_decimals p.percent
    refine ⟨'\r' :: "Progress: [".data ++ p.barChars ++ ']' :: ' ' :: pre,
      d1, d2, ?_, hd1, hd2⟩
    simp [progressReader.renderChars, heq, List.append_assoc]

/-- Witness for C8 at a concrete state (7 of 20 bytes read). -/
theorem c8_witness :
    (0 : Nat) < (progressReader.mk [] 20 7 0).total ∧
    ((progressReader.mk [] 20 7 0).renderChars.head? = some '\r' ∧
    (∀ c ∈ (progressReader.mk [] 20 7 0).renderChars, c ≠ '\n') ∧
    (progressReader.mk [] 20 7 0).barChars.length = progressBarWidth ∧
    (progressReader.mk [] 20 7 0).barChars.count '=' =
      min (Int.toNat (Int.floor
        ((progressReader.mk [] 20 7 0).percent /
          ((100 : ℚ) / (progressBarWidth : ℚ))))) progressBarWidth ∧
    ∃ pre d1 d2, (progressReader.mk [] 20 7 0).renderChars =
        pre ++ ['.', d1, d2, '%'] ∧ d1 ∈ decDigits ∧ d2 ∈ decDigits) :=
  ⟨by decide, c8_render_contract (progressReader.mk [] 20 7 0) (by decide)⟩

end Jotti
